import Mathlib

/-!
Verification development for the BVH-to-CSV converter
(`src/converters/bvh2csv.py`).

The converter parses a BVH file (done by the external `bvh` library),
computes per-joint world transforms by forward kinematics over the joint
hierarchy (`write_joint_locations` / `get_world_locations`), and writes two
CSV tables (`write_joint_rotations`, `write_joint_locations`), with overall
success logic in `bvh2csv` and process exit in `__main__`.

Numbers are modelled by `ℚ`.  The trigonometric functions used by the
rotation composer are abstracted as a pair of functions `co si : ℚ → ℚ`
(the claims under verification are algebraic in the rotation entries and
hold for every choice of `co`/`si`; the source computes them in floating
point, which has no faithful shallow embedding).
-/

/-- A 3-component vector of rationals (one row of the translation block of a
4×4 affine, or a joint offset). -/
structure Vec3 where
  x : ℚ
  y : ℚ
  z : ℚ
deriving DecidableEq

instance : Add Vec3 := ⟨fun a b => ⟨a.x + b.x, a.y + b.y, a.z + b.z⟩⟩

instance : SMul ℚ Vec3 := ⟨fun k v => ⟨k * v.x, k * v.y, k * v.z⟩⟩

instance : Zero Vec3 := ⟨⟨0, 0, 0⟩⟩

/-- A 3×3 matrix of rationals (the rotation block of a 4×4 affine). -/
structure Mat3 where
  m00 : ℚ
  m01 : ℚ
  m02 : ℚ
  m10 : ℚ
  m11 : ℚ
  m12 : ℚ
  m20 : ℚ
  m21 : ℚ
  m22 : ℚ
deriving DecidableEq

/-- The identity 3×3 matrix (`np.eye(3)`). -/
def Mat3.id : Mat3 := ⟨1, 0, 0, 0, 1, 0, 0, 0, 1⟩

/-- 3×3 matrix product. -/
def Mat3.mul (a b : Mat3) : Mat3 :=
  ⟨a.m00 * b.m00 + a.m01 * b.m10 + a.m02 * b.m20,
   a.m00 * b.m01 + a.m01 * b.m11 + a.m02 * b.m21,
   a.m00 * b.m02 + a.m01 * b.m12 + a.m02 * b.m22,
   a.m10 * b.m00 + a.m11 * b.m10 + a.m12 * b.m20,
   a.m10 * b.m01 + a.m11 * b.m11 + a.m12 * b.m21,
   a.m10 * b.m02 + a.m11 * b.m12 + a.m12 * b.m22,
   a.m20 * b.m00 + a.m21 * b.m10 + a.m22 * b.m20,
   a.m20 * b.m01 + a.m21 * b.m11 + a.m22 * b.m21,
   a.m20 * b.m02 + a.m21 * b.m12 + a.m22 * b.m22⟩

/-- 3×3 matrix applied to a vector. -/
def Mat3.mulVec (a : Mat3) (v : Vec3) : Vec3 :=
  ⟨a.m00 * v.x + a.m01 * v.y + a.m02 * v.z,
   a.m10 * v.x + a.m11 * v.y + a.m12 * v.z,
   a.m20 * v.x + a.m21 * v.y + a.m22 * v.z⟩

/-- A 4×4 affine transform with no scale/shear: rotation block `rot`
(`M[:3, :3]`) and translation block `trans` (`M[:3, 3]`); the bottom row is
implicitly `[0, 0, 0, 1]`.  This is the shape of every matrix the source
builds (`t3d.affines.compose` output and its products). -/
structure Affine where
  rot : Mat3
  trans : Vec3
deriving DecidableEq

/-- The identity affine: `t3d.affines.compose(np.zeros(3), np.eye(3),
np.ones(3))`. -/
def Affine.id : Affine := ⟨Mat3.id, 0⟩

/-- Composition of affines by 4×4 matrix multiplication (`np.matmul` on
matrices whose bottom row is `[0,0,0,1]`): the rotation blocks multiply and
the translation becomes `a.rot ⬝ b.trans + a.trans`. -/
def Affine.comp (a b : Affine) : Affine :=
  ⟨a.rot.mul b.rot, a.rot.mulVec b.trans + a.trans⟩

/-- Full 4×4 matrices, used only to justify that `Affine.comp` is exactly
the 4×4 matrix multiplication the source performs. -/
def Mat4 : Type := Fin 4 → Fin 4 → ℚ

/-- Entry-wise definition of 4×4 matrix multiplication. -/
def mat4Mul (a b : Mat4) : Mat4 := fun i j =>
  a i 0 * b 0 j + a i 1 * b 1 j + a i 2 * b 2 j + a i 3 * b 3 j

/-- The 4×4 matrix of an affine (bottom row `[0,0,0,1]`). -/
def Affine.toMat4 (a : Affine) : Mat4 := fun i j =>
  match i, j with
  | 0, 0 => a.rot.m00
  | 0, 1 => a.rot.m01
  | 0, 2 => a.rot.m02
  | 0, 3 => a.trans.x
  | 1, 0 => a.rot.m10
  | 1, 1 => a.rot.m11
  | 1, 2 => a.rot.m12
  | 1, 3 => a.trans.y
  | 2, 0 => a.rot.m20
  | 2, 1 => a.rot.m21
  | 2, 2 => a.rot.m22
  | 2, 3 => a.trans.z
  | 3, 0 => 0
  | 3, 1 => 0
  | 3, 2 => 0
  | 3, 3 => 1

/-- The three coordinate axes appearing in BVH channel names. -/
inductive Axis where
  | x
  | y
  | z
deriving DecidableEq

/-- A BVH channel: one of `Xposition .. Zposition, Xrotation .. Zrotation`.
The first letter is the axis; the suffix distinguishes position from
rotation (`channel[1:] == 'rotation'` in the source). -/
inductive Channel where
  | pos : Axis → Channel
  | rot : Axis → Channel
deriving DecidableEq

/-- Whether the channel name ends in `rotation` (`channel[1:] ==
'rotation'`). -/
def Channel.isRot : Channel → Bool
  | .pos _ => false
  | .rot _ => true

/-- The axis letter of a channel (`channel[:1]`). -/
def Channel.axisOf : Channel → Axis
  | .pos a => a
  | .rot a => a

/-- The keyword a BVH node is introduced by: `ROOT`, `JOINT` or `End`
(`joint.value[0]` in the source). -/
inductive NodeKind where
  | Root
  | Joint
  | End
deriving DecidableEq

/-- A parsed BVH hierarchy node, as the source accesses it: `value[0]`
(kind), `value[1]` (name), `joint['OFFSET']` (offset), `joint['CHANNELS'][1:]`
(channel list), the per-frame channel samples
(`bvh_tree.frames_joint_channels`), and the child nodes reachable through
`joint.filter('JOINT')` / `joint.filter('End')`.  Channel samples are a
function from frame index and channel to the sampled value. -/
inductive BvhNode where
  | node : NodeKind → String → Vec3 → List Channel → (ℕ → Channel → ℚ) →
      List BvhNode → BvhNode

/-- Kind accessor (`joint.value[0]`). -/
def BvhNode.kind : BvhNode → NodeKind
  | .node k _ _ _ _ _ => k

/-- Name accessor (`joint.value[1]` / `joint.name`). -/
def BvhNode.name : BvhNode → String
  | .node _ nm _ _ _ _ => nm

/-- Offset accessor (`joint['OFFSET']`, parsed to numbers). -/
def BvhNode.offset : BvhNode → Vec3
  | .node _ _ off _ _ _ => off

/-- Channel-list accessor (`joint['CHANNELS'][1:]`). -/
def BvhNode.channels : BvhNode → List Channel
  | .node _ _ _ chs _ _ => chs

/-- Per-frame channel samples accessor. -/
def BvhNode.data : BvhNode → ℕ → Channel → ℚ
  | .node _ _ _ _ d _ => d

/-- Child nodes accessor. -/
def BvhNode.children : BvhNode → List BvhNode
  | .node _ _ _ _ _ cs => cs

/-- The axis letters of the rotation channels in declared order (the string
`''.join([ch[:1] for ch in channels if ch[1:] == 'rotation'])` of
`get_world_locations`, line 96). -/
def rotAxesOf (n : BvhNode) : List Axis :=
  (n.channels.filter fun chn => chn.isRot).map Channel.axisOf

/-- The axis order handed to the affine builder: the rotation axes reversed
(line 97, `axes_order[::-1]`; the `'s'` prefix selects static/extrinsic
composition, which is modelled by `composeStatic` below). -/
def axesOrder (n : BvhNode) : List Axis :=
  (rotAxesOf n).reverse

/-- The elementary rotation matrix about one axis, with the trigonometric
functions abstracted as `co`/`si`. -/
def elemRot (co si : ℚ → ℚ) : Axis → ℚ → Mat3
  | .x, t => ⟨1, 0, 0, 0, co t, -(si t), 0, si t, co t⟩
  | .y, t => ⟨co t, 0, si t, 0, 1, 0, -(si t), 0, co t⟩
  | .z, t => ⟨co t, -(si t), 0, si t, co t, 0, 0, 0, 1⟩

/-- Modelled from the spec: the Rotation Composer of
`converters.bvh_transforms.get_affines` (that module is not part of the
sources under verification).  Given a list of static (extrinsic) axes, it
produces the product of the elementary rotations applied in list order; a
rotation applied later multiplies on the left.  The angle for each axis is
looked up by axis tag. -/
def composeStatic (co si : ℚ → ℚ) (axes : List Axis) (ang : Axis → ℚ) : Mat3 :=
  axes.foldl (fun acc a => (elemRot co si a (ang a)).mul acc) Mat3.id

/-- The per-frame rotation block built for a joint: its rotation channel
values composed over `axesOrder` (the declared order reversed, as static
axes). -/
def rotPart (co si : ℚ → ℚ) (n : BvhNode) (f : ℕ) : Mat3 :=
  composeStatic co si (axesOrder n) (fun a => n.data f (Channel.rot a))

/-- Modelled from the spec: the translation the Affine Builder of
`get_affines` uses — the joint's position-channel samples, with absent
position channels defaulting to zero. -/
def transPart (n : BvhNode) (f : ℕ) : Vec3 :=
  ⟨if Channel.pos Axis.x ∈ n.channels then n.data f (Channel.pos Axis.x) else 0,
   if Channel.pos Axis.y ∈ n.channels then n.data f (Channel.pos Axis.y) else 0,
   if Channel.pos Axis.z ∈ n.channels then n.data f (Channel.pos Axis.z) else 0⟩

/-- Modelled from the spec: `get_affines(bvh_tree, joint.name, axes)` — the
per-frame local affine of a joint, rotation from its rotation channels and
translation from its position channels. -/
def getAffine (co si : ℚ → ℚ) (n : BvhNode) (f : ℕ) : Affine :=
  ⟨rotPart co si n f, transPart n f⟩

/-- The scale step of `get_world_locations` (lines 105–106): when the scale
factor differs from 1, multiply the translation block by it. -/
def scaleStep (k : ℚ) (a : Affine) : Affine :=
  if k ≠ 1 then ⟨a.rot, k • a.trans⟩ else a

/-- One node's world transform as computed by `get_world_locations`
(lines 90–106): End Sites start from the identity affine, other nodes from
`get_affines`; every non-root node has its translation overwritten by its
fixed offset and is composed onto the parent's world transform; finally the
scale step is applied. -/
def worldFn (co si : ℚ → ℚ) (k : ℚ) (isRoot : Bool) (pw : ℕ → Affine)
    (n : BvhNode) : ℕ → Affine := fun f =>
  let base : Affine :=
    if n.kind = NodeKind.End then Affine.id else getAffine co si n f
  let composed : Affine :=
    if isRoot then base else (pw f).comp ⟨base.rot, n.offset⟩
  scaleStep k composed

/-- The child joints the traversal recurses into
(`joint.filter('JOINT')`). -/
def jointChildren (n : BvhNode) : List BvhNode :=
  n.children.filter fun c => decide (c.kind = NodeKind.Joint)

/-- The world transform (and the node) at a path of joint-child indices,
threading the parent world transform exactly as the recursion of
`get_world_locations` does. -/
def fkAt (co si : ℚ → ℚ) (k : ℚ) (isRoot : Bool) (pw : ℕ → Affine)
    (n : BvhNode) : List ℕ → Option ((ℕ → Affine) × BvhNode)
  | [] => some (worldFn co si k isRoot pw n, n)
  | i :: rest =>
    match (jointChildren n)[i]? with
    | some ch => fkAt co si k false (worldFn co si k isRoot pw n) ch rest
    | none => none

/-- The world transform at a path below the root, as in the call
`get_world_locations(root)`: the root has no parent (the identity transform
is passed, and ignored because `isRoot` is true). -/
def fkRun (co si : ℚ → ℚ) (k : ℚ) (t : BvhNode) (path : List ℕ) :
    Option ((ℕ → Affine) × BvhNode) :=
  fkAt co si k true (fun _ => Affine.id) t path

/-- Following the spec's words (§4.3): the root's local affine — rotation
composed from the root's rotation channels, translation from its
translation channels scaled by the scale factor. -/
def specLocalRoot (co si : ℚ → ℚ) (k : ℚ) (n : BvhNode) (f : ℕ) : Affine :=
  ⟨rotPart co si n f, k • transPart n f⟩

/-- Following the spec's words (§4.3): a non-root joint's local affine —
rotation composed from its rotation channels, translation equal to its
fixed offset scaled by the scale factor. -/
def specLocalNonRoot (co si : ℚ → ℚ) (k : ℚ) (n : BvhNode) (f : ℕ) : Affine :=
  ⟨rotPart co si n f, k • n.offset⟩

mutual

/-- The effect of the traversal of `get_world_locations` on the tree itself.
Line 91 mutates each processed End Site's name (`joint.value[1] =
joint.parent.name + '_End'`); processed means: when End Sites are included
(`end_sites`), the first End child of each visited node (lines 112–115,
"There can be only one End Site per joint"), and every `JOINT` child is
visited (lines 116–117). -/
def treeWalk (es : Bool) (pname : String) : BvhNode → BvhNode
  | .node kind nm off chs d cs =>
    let nm2 := if kind = NodeKind.End then pname ++ "_End" else nm
    BvhNode.node kind nm2 off chs d (treeWalkKids es nm2 false cs)

/-- Child-list part of `treeWalk`: walk every `JOINT` child and, when End
Sites are included, the first End child; `endDone` records whether an End
child has already been handled. -/
def treeWalkKids (es : Bool) (pname : String) : Bool → List BvhNode → List BvhNode
  | _, [] => []
  | endDone, c :: r =>
    if c.kind = NodeKind.Joint then
      treeWalk es pname c :: treeWalkKids es pname endDone r
    else if c.kind = NodeKind.End ∧ es = true ∧ endDone = false then
      treeWalk es pname c :: treeWalkKids es pname true r
    else
      c :: treeWalkKids es pname endDone r

end

mutual

/-- Erase the names of End Site nodes, keeping everything else.  Two trees
with equal `scrub` agree on kinds, non-End names, offsets, channel lists,
channel data and hierarchy, and differ at most in End Site names. -/
def scrub : BvhNode → BvhNode
  | .node kind nm off chs d cs =>
    BvhNode.node kind (if kind = NodeKind.End then "" else nm) off chs d
      (scrubL cs)

/-- List part of `scrub`. -/
def scrubL : List BvhNode → List BvhNode
  | [] => []
  | c :: r => scrub c :: scrubL r

end

/-- Number of End Site children in a list of nodes. -/
def countEnds : List BvhNode → ℕ
  | [] => 0
  | c :: r => (if c.kind = NodeKind.End then 1 else 0) + countEnds r

mutual

/-- Well-formedness of a BVH hierarchy as the format guarantees it: each
node has at most one End Site child, and no node below another has kind
`ROOT`. -/
def wfTree : BvhNode → Bool
  | .node _ _ _ _ _ cs => decide (countEnds cs ≤ 1) && wfKids cs

/-- List part of `wfTree`. -/
def wfKids : List BvhNode → Bool
  | [] => true
  | c :: r => decide (c.kind ≠ NodeKind.Root) && wfTree c && wfKids r

end

mutual

/-- Every End Site in the tree bears the generic placeholder name `Site`
(the second token of the `End Site` line of the BVH format). -/
def allSite : BvhNode → Bool
  | .node kind nm _ _ _ cs =>
    (if kind = NodeKind.End then decide (nm = "Site") else true) && allSiteL cs

/-- List part of `allSite`. -/
def allSiteL : List BvhNode → Bool
  | [] => true
  | c :: r => allSite c && allSiteL r

end

mutual

/-- Every End Site child of every node carries the synthetic name formed
from its parent's name followed by `_End`. -/
def endsOk : BvhNode → Bool
  | .node _ nm _ _ _ cs => endsOkL nm cs

/-- List part of `endsOk`: checks each End child's name against the parent
name `pname`. -/
def endsOkL (pname : String) : List BvhNode → Bool
  | [] => true
  | c :: r =>
    ((if c.kind = NodeKind.End then decide (c.name = pname ++ "_End") else true)
        && endsOk c)
      && endsOkL pname r

end

mutual

/-- Two trees agree on everything (kinds, names, offsets, channel lists,
hierarchy, and rotation-channel samples) except possibly the sampled values
of position channels. -/
def SimPos : BvhNode → BvhNode → Prop
  | .node kind nm off chs d cs, .node kind2 nm2 off2 chs2 d2 cs2 =>
    kind = kind2 ∧ nm = nm2 ∧ off = off2 ∧ chs = chs2 ∧
      (∀ f a, d f (Channel.rot a) = d2 f (Channel.rot a)) ∧ SimPosL cs cs2

/-- List part of `SimPos`. -/
def SimPosL : List BvhNode → List BvhNode → Prop
  | [], [] => True
  | c :: r, c2 :: r2 => SimPos c c2 ∧ SimPosL r r2
  | _, _ => False

end

/-- The two CSV outputs a conversion can produce. -/
inductive CsvKind where
  | rotCsv
  | locCsv
deriving DecidableEq

/-- Observable outcome of one `bvh2csv` call: the returned boolean, which
writes were attempted (in order), and the per-write results (`none` when the
write was not requested). -/
structure RunTrace where
  success : Bool
  attempts : List CsvKind
  locResult : Option Bool
  rotResult : Option Bool
deriving DecidableEq

/-- The `df.to_csv(filepath)` call: succeeds, or raises `IOError` with an
OS error number. -/
def toCsvResult (ioOk : Bool) : Except ℕ Unit :=
  if ioOk then Except.ok () else Except.error 13

/-- The shared body of `write_joint_rotations` (lines 62–68) and
`write_joint_locations` (lines 122–128): the write is attempted inside
`try`, an `IOError` is caught and reported, and the function returns a
boolean rather than letting the exception escape. -/
def writeResult (ioOk : Bool) : Bool :=
  match toCsvResult ioOk with
  | Except.ok _ => true
  | Except.error _ => false

/-- Control flow of `bvh2csv` (lines 149–174): abort on source read
failure; otherwise optimistically set both success flags, attempt the
location write if requested (line 166) and then the rotation write if
requested (line 168), and return `False` only when
`not (loc_success or rot_success)` (line 171). -/
def bvh2csvRun (readOk doRot doLoc locIoOk rotIoOk : Bool) : RunTrace :=
  if readOk = false then ⟨false, [], none, none⟩
  else
    let locRes := if doLoc then some (writeResult locIoOk) else none
    let rotRes := if doRot then some (writeResult rotIoOk) else none
    let locSuccess := locRes.getD true
    let rotSuccess := rotRes.getD true
    ⟨if (locSuccess || rotSuccess) = false then false else true,
     (if doLoc then [CsvKind.locCsv] else []) ++
       (if doRot then [CsvKind.rotCsv] else []),
     locRes, rotRes⟩

/-- The `__main__` exit behaviour (lines 208–211): exit status 1 when
`bvh2csv` returned `False`, 0 otherwise. -/
def mainExit (ok : Bool) : ℕ :=
  if ok then 0 else 1

/-- Element count of `np.arange(start, stop, step)` for `step > 0`:
`⌈(stop - start) / step⌉`.  The source builds the time column as
`np.arange(0, nframes * frame_time, frame_time)` (lines 53 and 85); numpy
computes this length with the floating-point values of `stop` and `step`. -/
def npArangeLen (start stop step : ℚ) : ℤ :=
  ⌈(stop - start) / step⌉

/-- The exact rational value of the IEEE-754 binary64 number nearest to
0.1, namely `3602879701896397 * 2 ^ (-55)` — the value the parsed
`Frame Time: 0.1` has in the source. -/
def dbl01 : ℚ := 3602879701896397 / 36028797018963968

/-- The exact rational value of the binary64 product `3 * dbl01` (the
exact product `10808639105689191 * 2 ^ (-55)` is a rounding tie, resolved
to even as `5404319552844596 * 2 ^ (-54)`) — the value of
`bvh_tree.nframes * bvh_tree.frame_time` for 3 frames at frame time 0.1. -/
def dbl3x01 : ℚ := 5404319552844596 / 18014398509481984

/-- A concrete stand-in for cosine used in closed example computations (the
claims hold for every `co`/`si`). -/
def co0 : ℚ → ℚ := fun _ => 1

/-- A concrete stand-in for sine used in closed example computations. -/
def si0 : ℚ → ℚ := fun _ => 0

/-- Channel samples of the example root: `Xposition = 1`, everything else
0, at every frame. -/
def exRootData : ℕ → Channel → ℚ := fun _ ch =>
  match ch with
  | Channel.pos Axis.x => 1
  | _ => 0

/-- Example child joint: offset `(0, 1, 0)`, no channels. -/
def exChild : BvhNode :=
  BvhNode.node NodeKind.Joint "j" ⟨0, 1, 0⟩ [] (fun _ _ => 0) []

/-- Example skeleton: a root translated by `(1, 0, 0)` with one child
joint whose offset is `(0, 1, 0)`; no rotation channels anywhere. -/
def exTree : BvhNode :=
  BvhNode.node NodeKind.Root "root" ⟨0, 0, 0⟩
    [Channel.pos Axis.x, Channel.pos Axis.y, Channel.pos Axis.z]
    exRootData [exChild]

/-- Example End Site with the generic placeholder name. -/
def exEnd : BvhNode :=
  BvhNode.node NodeKind.End "Site" ⟨0, 2, 0⟩ [] (fun _ _ => 0) []

/-- Example skeleton with an End Site: a root whose only child is an
unnamed End Site. -/
def exTreeE : BvhNode :=
  BvhNode.node NodeKind.Root "root" ⟨0, 0, 0⟩ [] (fun _ _ => 0) [exEnd]

/-- Channel samples: position channels sample 7, rotation channels 5. -/
def simDataA : ℕ → Channel → ℚ := fun _ ch =>
  match ch with
  | Channel.pos _ => 7
  | Channel.rot _ => 5

/-- Channel samples: position channels sample 9, rotation channels 5 —
differs from `simDataA` only on position channels. -/
def simDataB : ℕ → Channel → ℚ := fun _ ch =>
  match ch with
  | Channel.pos _ => 9
  | Channel.rot _ => 5

/-- Child joint that declares a position channel sampling 7. -/
def simChildA : BvhNode :=
  BvhNode.node NodeKind.Joint "a" ⟨1, 0, 0⟩
    [Channel.pos Axis.x, Channel.rot Axis.z] simDataA []

/-- Same child joint with its position channel sampling 9 instead. -/
def simChildB : BvhNode :=
  BvhNode.node NodeKind.Joint "a" ⟨1, 0, 0⟩
    [Channel.pos Axis.x, Channel.rot Axis.z] simDataB []

/-- Skeleton whose non-root joint samples position 7. -/
def simTreeA : BvhNode :=
  BvhNode.node NodeKind.Root "root" ⟨0, 0, 0⟩
    [Channel.pos Axis.x, Channel.pos Axis.y, Channel.pos Axis.z]
    exRootData [simChildA]

/-- Skeleton identical to `simTreeA` except that the non-root joint
samples position 9. -/
def simTreeB : BvhNode :=
  BvhNode.node NodeKind.Root "root" ⟨0, 0, 0⟩
    [Channel.pos Axis.x, Channel.pos Axis.y, Channel.pos Axis.z]
    exRootData [simChildB]

/-- Channel samples for the rotation-order example: `Zrotation = 30`,
`Xrotation = 40`, `Yrotation = 50`. -/
def permData : ℕ → Channel → ℚ := fun _ ch =>
  match ch with
  | Channel.rot Axis.z => 30
  | Channel.rot Axis.x => 40
  | Channel.rot Axis.y => 50
  | _ => 0

/-- Joint declaring the full rotation channel triplet in order `Z X Y`. -/
def permJoint : BvhNode :=
  BvhNode.node NodeKind.Joint "p" ⟨0, 0, 0⟩
    [Channel.rot Axis.z, Channel.rot Axis.x, Channel.rot Axis.y] permData []

theorem rootEndIff : NodeKind.Root = NodeKind.End ↔ False := by
  constructor
  · intro h
    exact absurd h (by decide)
  · intro h
    exact h.elim

theorem jointEndIff : NodeKind.Joint = NodeKind.End ↔ False := by
  constructor
  · intro h
    exact absurd h (by decide)
  · intro h
    exact h.elim

theorem vec3AddDef (a b : Vec3) : a + b = ⟨a.x + b.x, a.y + b.y, a.z + b.z⟩ := rfl

theorem vec3SmulDef (k : ℚ) (v : Vec3) : k • v = ⟨k * v.x, k * v.y, k * v.z⟩ := rfl

theorem vec3ZeroDef : (0 : Vec3) = ⟨0, 0, 0⟩ := rfl

theorem vec3OneSmul (v : Vec3) : (1 : ℚ) • v = v := by
  cases v
  simp [vec3SmulDef]

theorem mat3MulIdRight (a : Mat3) : a.mul Mat3.id = a := by
  cases a
  simp [Mat3.mul, Mat3.id]

/-- Composition by `Affine.comp` is exactly 4×4 matrix multiplication on
matrices with bottom row `[0,0,0,1]`, as the source performs with
`np.matmul`. -/
theorem affineCompIsMat4Mul (a b : Affine) :
    (a.comp b).toMat4 = mat4Mul a.toMat4 b.toMat4 := by
  funext i j
  fin_cases i <;> fin_cases j <;>
    simp [Affine.toMat4, mat4Mul, Affine.comp, Mat3.mul, Mat3.mulVec,
      vec3AddDef]

theorem scaleStepOneEq (a : Affine) : scaleStep 1 a = a := by
  simp [scaleStep]

/-- Unfolding of `worldFn` at a non-root, non-End node: translation
overwritten by the offset, then composed onto the parent, then scaled. -/
theorem worldFnNonRootEq (co si : ℚ → ℚ) (k : ℚ) (pw : ℕ → Affine)
    (n : BvhNode) (f : ℕ) (h : ¬n.kind = NodeKind.End) :
    worldFn co si k false pw n f =
      scaleStep k ((pw f).comp ⟨rotPart co si n f, n.offset⟩) := by
  simp [worldFn, h, getAffine]

/-- Unfolding of `worldFn` at the root (non-End): the local affine from
`get_affines`, then scaled; the parent transform is ignored. -/
theorem worldFnRootEq (co si : ℚ → ℚ) (k : ℚ) (pw : ℕ → Affine)
    (n : BvhNode) (f : ℕ) (h : ¬n.kind = NodeKind.End) :
    worldFn co si k true pw n f = scaleStep k ⟨rotPart co si n f, transPart n f⟩ := by
  simp [worldFn, h, getAffine]

theorem memJointChildrenKind {n ch : BvhNode} (h : ch ∈ jointChildren n) :
    ch.kind = NodeKind.Joint := by
  rw [jointChildren] at h
  exact of_decide_eq_true (List.mem_filter.mp h).2

/-- Extending an `fkAt` path by one index steps to that joint child with
the current world transform as parent transform. -/
theorem fkAtAppend (co si : ℚ → ℚ) (k : ℚ) :
    ∀ (path : List ℕ) (isRoot : Bool) (pw : ℕ → Affine) (n : BvhNode) (i : ℕ),
    fkAt co si k isRoot pw n (path ++ [i]) =
      (fkAt co si k isRoot pw n path).bind fun p =>
        ((jointChildren p.2)[i]?).map fun ch =>
          (worldFn co si k false p.1 ch, ch)
  | [], isRoot, pw, n, i => by
    cases h : (jointChildren n)[i]? <;>
      simp [fkAt, h]
  | j :: rest, isRoot, pw, n, i => by
    cases h : (jointChildren n)[j]? with
    | none => simp [fkAt, h]
    | some ch => simp [fkAt, h, fkAtAppend co si k rest false _ ch i]

/-- C2 (amended): at scale factor 1 — the default, and the only scale at
which the claim holds — the world transform computed for a joint reached by
extending a path by one joint-child index equals the parent's world
transform composed (parent first, by matrix multiplication) with the
child's local transform (rotation from its channels, translation its fixed
offset); and the root's world affine equals its local affine (rotation from
channels, translation from its translation channels). -/
theorem worldIsParentComposeLocalAtScaleOne (co si : ℚ → ℚ) (t : BvhNode)
    (path : List ℕ) (i : ℕ) (w : ℕ → Affine) (n ch : BvhNode)
    (hw : fkRun co si 1 t path = some (w, n))
    (hch : (jointChildren n)[i]? = some ch) :
    fkRun co si 1 t (path ++ [i]) =
      some (fun f => (w f).comp (specLocalNonRoot co si 1 ch f), ch) ∧
    (t.kind = NodeKind.Root →
      fkRun co si 1 t [] = some (fun f => specLocalRoot co si 1 t f, t)) := by
  constructor
  · have hmem : ch ∈ jointChildren n := by
      rcases List.getElem?_eq_some.1 hch with ⟨hlt, hEq⟩
      exact hEq ▸ List.getElem_mem _
    have hkE : ¬ch.kind = NodeKind.End := by
      rw [memJointChildrenKind hmem]
      decide
    have step := fkAtAppend co si 1 path true (fun _ => Affine.id) t i
    rw [fkRun] at hw
    rw [fkRun, step, hw]
    simp only [Option.some_bind, hch, Option.map_some']
    simp only [Option.some.injEq, Prod.mk.injEq]
    refine ⟨funext fun f => ?_, trivial⟩
    rw [worldFnNonRootEq co si 1 w ch f hkE, scaleStepOneEq, specLocalNonRoot,
      vec3OneSmul]
  · intro ht
    have hkE : ¬t.kind = NodeKind.End := by
      rw [ht]
      decide
    rw [fkRun]
    simp only [fkAt, Option.some.injEq, Prod.mk.injEq]
    refine ⟨funext fun f => ?_, trivial⟩
    rw [worldFnRootEq co si 1 (fun _ => Affine.id) t f hkE, scaleStepOneEq,
      specLocalRoot, vec3OneSmul]

/-- Witness for C2's amended theorem at the concrete two-joint skeleton
`exTree` with scale 1. -/
theorem worldIsParentComposeLocalAtScaleOne_witness :
    ((fkRun co0 si0 1 exTree [] =
        some (worldFn co0 si0 1 true (fun _ => Affine.id) exTree, exTree)) ∧
      (jointChildren exTree)[0]? = some exChild) ∧
    (fkRun co0 si0 1 exTree ([] ++ [0]) =
        some (fun f =>
          (worldFn co0 si0 1 true (fun _ => Affine.id) exTree f).comp
            (specLocalNonRoot co0 si0 1 exChild f), exChild) ∧
      (exTree.kind = NodeKind.Root →
        fkRun co0 si0 1 exTree [] =
          some (fun f => specLocalRoot co0 si0 1 exTree f, exTree))) :=
  ⟨⟨rfl, rfl⟩,
    worldIsParentComposeLocalAtScaleOne co0 si0 exTree [] 0
      (worldFn co0 si0 1 true (fun _ => Affine.id) exTree) exTree exChild rfl rfl⟩

/-- Counterexample to C2 as stated: at scale 2, on the skeleton `exTree`
(root translated by `(1,0,0)`, child offset `(0,1,0)`), the computed world
transform of the child at frame 0 is `(4,2,0)`, while parent-world composed
with the child's local transform gives `(2,2,0)`. -/
theorem worldCompositionFailsAtScaleTwo :
    (fkRun co0 si0 2 exTree []).map (fun p => p.1 0) =
        some ⟨Mat3.id, ⟨2, 0, 0⟩⟩ ∧
    (fkRun co0 si0 2 exTree [0]).map (fun p => p.1 0) =
        some ⟨Mat3.id, ⟨4, 2, 0⟩⟩ ∧
    (Affine.mk Mat3.id ⟨2, 0, 0⟩).comp (specLocalNonRoot co0 si0 2 exChild 0) ≠
      Affine.mk Mat3.id ⟨4, 2, 0⟩ := by
  refine ⟨?_, ?_, ?_⟩
  · norm_num [fkRun, fkAt, jointChildren, exTree, exChild, worldFn, getAffine,
      rotPart, transPart, axesOrder, rotAxesOf, composeStatic, scaleStep,
      exRootData, Affine.comp, Affine.id, Mat3.mul, Mat3.mulVec, Mat3.id,
      BvhNode.kind, BvhNode.channels, BvhNode.offset, BvhNode.data,
      BvhNode.children, Channel.isRot, Channel.axisOf, co0, si0, rootEndIff,
      jointEndIff, vec3AddDef, vec3SmulDef, vec3ZeroDef]
  · norm_num [fkRun, fkAt, jointChildren, exTree, exChild, worldFn, getAffine,
      rotPart, transPart, axesOrder, rotAxesOf, composeStatic, scaleStep,
      exRootData, Affine.comp, Affine.id, Mat3.mul, Mat3.mulVec, Mat3.id,
      BvhNode.kind, BvhNode.channels, BvhNode.offset, BvhNode.data,
      BvhNode.children, Channel.isRot, Channel.axisOf, co0, si0, rootEndIff,
      jointEndIff, vec3AddDef, vec3SmulDef, vec3ZeroDef]
  · norm_num [specLocalNonRoot, rotPart, axesOrder, rotAxesOf, composeStatic,
      exChild, BvhNode.channels, BvhNode.offset, BvhNode.data, Channel.isRot,
      Affine.comp, Mat3.mul, Mat3.mulVec, Mat3.id, vec3SmulDef, vec3AddDef,
      Affine.mk.injEq, Vec3.mk.injEq]

/-- C1 evidence: with scale 2 the child joint's world translation is
`(4,2,0)`, but twice the scale-1 translation is `(2,2,0)` — the scale is
re-applied at every hierarchy level (line 106 runs after composing with the
already-scaled parent, line 104), so translations of depth-1 joints carry
the factor squared on the root-translation component.  The rotation blocks
agree (both identity here). -/
theorem scaleAppliedPerHierarchyLevel :
    (fkRun co0 si0 2 exTree [0]).map (fun p => p.1 0) =
        some ⟨Mat3.id, ⟨4, 2, 0⟩⟩ ∧
    (fkRun co0 si0 1 exTree [0]).map (fun p => p.1 0) =
        some ⟨Mat3.id, ⟨1, 1, 0⟩⟩ ∧
    Vec3.mk 4 2 0 ≠ (2 : ℚ) • Vec3.mk 1 1 0 := by
  refine ⟨?_, ?_, ?_⟩
  · norm_num [fkRun, fkAt, jointChildren, exTree, exChild, worldFn, getAffine,
      rotPart, transPart, axesOrder, rotAxesOf, composeStatic, scaleStep,
      exRootData, Affine.comp, Affine.id, Mat3.mul, Mat3.mulVec, Mat3.id,
      BvhNode.kind, BvhNode.channels, BvhNode.offset, BvhNode.data,
      BvhNode.children, Channel.isRot, Channel.axisOf, co0, si0, rootEndIff,
      jointEndIff, vec3AddDef, vec3SmulDef, vec3ZeroDef]
  · norm_num [fkRun, fkAt, jointChildren, exTree, exChild, worldFn, getAffine,
      rotPart, transPart, axesOrder, rotAxesOf, composeStatic, scaleStep,
      exRootData, Affine.comp, Affine.id, Mat3.mul, Mat3.mulVec, Mat3.id,
      BvhNode.kind, BvhNode.channels, BvhNode.offset, BvhNode.data,
      BvhNode.children, Channel.isRot, Channel.axisOf, co0, si0, rootEndIff,
      jointEndIff, vec3AddDef, vec3SmulDef, vec3ZeroDef]
  · norm_num [vec3SmulDef, Vec3.mk.injEq]

theorem simPosKind {n u : BvhNode} (h : SimPos n u) : n.kind = u.kind := by
  cases n with
  | node k1 nm1 off1 chs1 d1 cs1 =>
    cases u with
    | node k2 nm2 off2 chs2 d2 cs2 =>
      exact h.1

theorem simPosChildren {n u : BvhNode} (h : SimPos n u) :
    SimPosL n.children u.children := by
  cases n with
  | node k1 nm1 off1 chs1 d1 cs1 =>
    cases u with
    | node k2 nm2 off2 chs2 d2 cs2 =>
      exact h.2.2.2.2.2

/-- Similar nodes produce the same world transform: the only channel data
entering `worldFn` are the rotation samples (position samples are discarded
at non-root nodes whose translation is overwritten by the offset), except at
the root, where the full data agreement hypothesis is used. -/
theorem worldFnSim (co si : ℚ → ℚ) (k : ℚ) (isRoot : Bool) (pw : ℕ → Affine)
    {n u : BvhNode} (h : SimPos n u)
    (hdata : isRoot = true → ∀ f chn, n.data f chn = u.data f chn) :
    worldFn co si k isRoot pw n = worldFn co si k isRoot pw u := by
  cases n with
  | node k1 nm1 off1 chs1 d1 cs1 =>
    cases u with
    | node k2 nm2 off2 chs2 d2 cs2 =>
      obtain ⟨hk, hnm, hoff, hchs, hrot, hcs⟩ := h
      subst hk
      subst hoff
      subst hchs
      funext f
      have hrotPart :
          rotPart co si (BvhNode.node k1 nm1 off1 chs1 d1 cs1) f =
            rotPart co si (BvhNode.node k1 nm2 off1 chs1 d2 cs2) f := by
        simp only [rotPart, axesOrder, rotAxesOf, BvhNode.channels, BvhNode.data]
        congr 1
        funext a
        exact hrot f a
      cases isRoot with
      | true =>
        have hd : ∀ (g : ℕ) (chn : Channel), d1 g chn = d2 g chn :=
          fun g chn => hdata rfl g chn
        have htrans :
            transPart (BvhNode.node k1 nm1 off1 chs1 d1 cs1) f =
              transPart (BvhNode.node k1 nm2 off1 chs1 d2 cs2) f := by
          simp only [transPart, BvhNode.channels, BvhNode.data]
          rw [hd f (Channel.pos Axis.x), hd f (Channel.pos Axis.y),
            hd f (Channel.pos Axis.z)]
        simp [worldFn, getAffine, hrotPart, htrans, BvhNode.kind]
      | false =>
        simp [worldFn, getAffine, BvhNode.kind, BvhNode.offset, hrotPart,
          apply_ite Affine.rot]

theorem simPosLLength : ∀ {l l2 : List BvhNode}, SimPosL l l2 →
    l.length = l2.length
  | [], [], _ => rfl
  | [], _ :: _, h => h.elim
  | _ :: _, [], h => h.elim
  | _ :: r, _ :: r2, h => by
    simp [List.length_cons, simPosLLength h.2]

theorem simPosLGet : ∀ {l l2 : List BvhNode}, SimPosL l l2 →
    ∀ (i : ℕ) (a : BvhNode), l[i]? = some a →
      ∃ b, l2[i]? = some b ∧ SimPos a b
  | [], [], _, i, a, ha => by simp at ha
  | [], _ :: _, h, _, _, _ => h.elim
  | _ :: _, [], h, _, _, _ => h.elim
  | c :: r, c2 :: r2, h, i, a, ha => by
    cases i with
    | zero =>
      refine ⟨c2, by simp, ?_⟩
      simp at ha
      exact ha ▸ h.1
    | succ j =>
      simp only [List.getElem?_cons_succ] at ha
      obtain ⟨b, hb, hab⟩ := simPosLGet h.2 j a ha
      exact ⟨b, by simpa using hb, hab⟩

theorem simPosLFilterJoint : ∀ {l l2 : List BvhNode}, SimPosL l l2 →
    SimPosL (l.filter fun c => decide (c.kind = NodeKind.Joint))
      (l2.filter fun c => decide (c.kind = NodeKind.Joint))
  | [], [], _ => trivial
  | [], _ :: _, h => h.elim
  | _ :: _, [], h => h.elim
  | c :: r, c2 :: r2, h => by
    obtain ⟨h1, h2⟩ := h
    have hk : decide (c2.kind = NodeKind.Joint) =
        decide (c.kind = NodeKind.Joint) := by
      rw [simPosKind h1]
    rw [List.filter_cons, List.filter_cons, hk]
    by_cases hc : decide (c.kind = NodeKind.Joint) = true
    · rw [if_pos hc, if_pos hc]
      exact ⟨h1, simPosLFilterJoint h2⟩
    · rw [if_neg hc, if_neg hc]
      exact simPosLFilterJoint h2

/-- The per-path world transforms agree between similar trees (with full
data agreement required only where the root flag is set). -/
theorem fkAtSim (co si : ℚ → ℚ) (k : ℚ) :
    ∀ (path : List ℕ) (isRoot : Bool) (pw : ℕ → Affine) (n u : BvhNode),
    SimPos n u → (isRoot = true → ∀ f chn, n.data f chn = u.data f chn) →
    (fkAt co si k isRoot pw n path).map Prod.fst =
      (fkAt co si k isRoot pw u path).map Prod.fst
  | [], isRoot, pw, n, u, h, hd => by
    simp [fkAt, worldFnSim co si k isRoot pw h hd]
  | i :: rest, isRoot, pw, n, u, h, hd => by
    have hjc : SimPosL (jointChildren n) (jointChildren u) :=
      simPosLFilterJoint (simPosChildren h)
    cases hcn : (jointChildren n)[i]? with
    | none =>
      have hlen := simPosLLength hjc
      have hcu : (jointChildren u)[i]? = none := by
        rw [List.getElem?_eq_none_iff] at hcn ⊢
        rwa [← hlen]
      simp [fkAt, hcn, hcu]
    | some a =>
      obtain ⟨b, hcb, hab⟩ := simPosLGet hjc i a hcn
      simp only [fkAt, hcn, hcb]
      rw [worldFnSim co si k isRoot pw h hd]
      exact fkAtSim co si k rest false (worldFn co si k isRoot pw u) a b hab
        (fun hh => by cases hh)

/-- C4: changing only the position-channel samples of non-root joints (the
root's full data kept identical) leaves every per-path world transform
unchanged — the channel-sampled translations of non-root joints are never
used; and the local transform composed at any non-root joint has
translation exactly the fixed offset. -/
theorem nonRootTranslationIsOffset (co si : ℚ → ℚ) (k : ℚ) (t u : BvhNode)
    (hsim : SimPos t u) (hroot : ∀ f chn, t.data f chn = u.data f chn) :
    (∀ path : List ℕ, (fkRun co si k t path).map Prod.fst =
      (fkRun co si k u path).map Prod.fst) ∧
    (∀ (pw : ℕ → Affine) (n : BvhNode) (f : ℕ), n.kind = NodeKind.Joint →
      worldFn co si k false pw n f =
        scaleStep k ((pw f).comp ⟨rotPart co si n f, n.offset⟩)) := by
  constructor
  · intro path
    exact fkAtSim co si k path true (fun _ => Affine.id) t u hsim
      (fun _ => hroot)
  · intro pw n f hk
    refine worldFnNonRootEq co si k pw n f ?_
    rw [hk]
    decide

/-- Witness for C4 at the concrete trees `simTreeA`/`simTreeB`, which
differ exactly in the child joint's position-channel samples (7 vs 9). -/
theorem nonRootTranslationIsOffset_witness :
    (SimPos simTreeA simTreeB ∧
      ∀ f chn, simTreeA.data f chn = simTreeB.data f chn) ∧
    (∀ path : List ℕ, (fkRun co0 si0 2 simTreeA path).map Prod.fst =
      (fkRun co0 si0 2 simTreeB path).map Prod.fst) := by
  have hsim : SimPos simTreeA simTreeB :=
    ⟨rfl, rfl, rfl, rfl, fun f a => rfl,
      ⟨⟨rfl, rfl, rfl, rfl, fun f a => rfl, trivial⟩, trivial⟩⟩
  have hdata : ∀ (f : ℕ) (chn : Channel),
      simTreeA.data f chn = simTreeB.data f chn := fun f chn => rfl
  exact ⟨⟨hsim, hdata⟩,
    (nonRootTranslationIsOffset co0 si0 2 simTreeA simTreeB hsim hdata).1⟩

/-- C5: for a joint declaring rotation channels on axes `a, b, c` in that
order, the rotation block built for it is the product of the elementary
rotations with the last-declared channel rightmost (applied first to
vectors): the composition order is the reverse of the declared channel
order.  `a b c` range over all axes, covering all 6 permutations. -/
theorem rotationOrderIsReversedChannelOrder (co si : ℚ → ℚ) (n : BvhNode)
    (a b c : Axis) (h : rotAxesOf n = [a, b, c]) (f : ℕ) :
    rotPart co si n f =
      (elemRot co si a (n.data f (Channel.rot a))).mul
        ((elemRot co si b (n.data f (Channel.rot b))).mul
          (elemRot co si c (n.data f (Channel.rot c)))) := by
  rw [rotPart, axesOrder, h]
  simp [composeStatic, mat3MulIdRight]

/-- Witness for C5 at a joint with declared rotation order `Z X Y`. -/
theorem rotationOrderIsReversedChannelOrder_witness :
    rotAxesOf permJoint = [Axis.z, Axis.x, Axis.y] ∧
    rotPart co0 si0 permJoint 0 =
      (elemRot co0 si0 Axis.z (permJoint.data 0 (Channel.rot Axis.z))).mul
        ((elemRot co0 si0 Axis.x (permJoint.data 0 (Channel.rot Axis.x))).mul
          (elemRot co0 si0 Axis.y (permJoint.data 0 (Channel.rot Axis.y)))) :=
  ⟨rfl, rotationOrderIsReversedChannelOrder co0 si0 permJoint Axis.z Axis.x
    Axis.y rfl 0⟩

theorem treeWalkKind (es : Bool) (pname : String) (n : BvhNode) :
    (treeWalk es pname n).kind = n.kind := by
  cases n with
  | node kind nm off chs d cs =>
    simp [treeWalk, BvhNode.kind]

theorem treeWalkEndName (es : Bool) (pname : String) (n : BvhNode)
    (h : n.kind = NodeKind.End) :
    (treeWalk es pname n).name = pname ++ "_End" := by
  cases n with
  | node kind nm off chs d cs =>
    rw [BvhNode.kind] at h
    simp [treeWalk, BvhNode.name, h]

theorem treeWalkJointName (es : Bool) (pname : String) (n : BvhNode)
    (h : ¬n.kind = NodeKind.End) :
    (treeWalk es pname n).name = n.name := by
  cases n with
  | node kind nm off chs d cs =>
    rw [BvhNode.kind] at h
    simp [treeWalk, BvhNode.name, h]

theorem kindNotJointNotEnd {k : NodeKind} (h1 : ¬k = NodeKind.Joint)
    (h2 : ¬k = NodeKind.End) : k = NodeKind.Root := by
  cases k with
  | Root => rfl
  | Joint => exact absurd rfl h1
  | End => exact absurd rfl h2

mutual

/-- Walking a tree changes nothing except the names of the End Sites it
processes: erasing End names from the result gives back the erased
original. -/
theorem scrubTreeWalk : ∀ (n : BvhNode) (es : Bool) (pname : String),
    scrub (treeWalk es pname n) = scrub n
  | .node kind nm off chs d cs, es, pname => by
    simp only [treeWalk, scrub]
    rw [scrubTreeWalkKids cs es _ false]
    by_cases hk : kind = NodeKind.End
    · simp [hk]
    · simp [hk]

/-- List part of `scrubTreeWalk`. -/
theorem scrubTreeWalkKids : ∀ (cs : List BvhNode) (es : Bool)
    (pname : String) (endDone : Bool),
    scrubL (treeWalkKids es pname endDone cs) = scrubL cs
  | [], _, _, _ => rfl
  | c :: r, es, pname, endDone => by
    rw [treeWalkKids]
    by_cases h1 : c.kind = NodeKind.Joint
    · rw [if_pos h1, scrubL, scrubL, scrubTreeWalk c, scrubTreeWalkKids r]
    · rw [if_neg h1]
      by_cases h2 : c.kind = NodeKind.End ∧ es = true ∧ endDone = false
      · rw [if_pos h2, scrubL, scrubL, scrubTreeWalk c, scrubTreeWalkKids r]
      · rw [if_neg h2, scrubL, scrubL, scrubTreeWalkKids r]

end

mutual

/-- In a well-formed tree (at most one End Site per node, no nested `ROOT`
nodes), walking with End Sites included renames every End Site to
`{parent}_End`. -/
theorem endsOkTreeWalk : ∀ (n : BvhNode) (pname : String),
    wfTree n = true → endsOk (treeWalk true pname n) = true
  | .node kind nm off chs d cs, pname, h => by
    simp only [wfTree, Bool.and_eq_true, decide_eq_true_eq] at h
    simp only [treeWalk, endsOk]
    exact endsOkLTreeWalkKids cs _ false h.2 (fun _ => h.1) (fun hh => by cases hh)

/-- List part of `endsOkTreeWalk`: walks a child list with the invariant
that at most one End child remains to be processed (none when `endDone`). -/
theorem endsOkLTreeWalkKids : ∀ (cs : List BvhNode) (pname : String)
    (endDone : Bool),
    wfKids cs = true →
    (endDone = false → countEnds cs ≤ 1) →
    (endDone = true → countEnds cs = 0) →
    endsOkL pname (treeWalkKids true pname endDone cs) = true
  | [], _, _, _, _, _ => rfl
  | c :: r, pname, endDone, hwf, h0, h1 => by
    simp only [wfKids, Bool.and_eq_true, decide_eq_true_eq] at hwf
    obtain ⟨⟨hcR, hcT⟩, hrT⟩ := hwf
    rw [treeWalkKids]
    by_cases hJ : c.kind = NodeKind.Joint
    · rw [if_pos hJ, endsOkL]
      have hkE : ¬(treeWalk true pname c).kind = NodeKind.End := by
        rw [treeWalkKind, hJ]
        decide
      rw [if_neg hkE, endsOkTreeWalk c pname hcT]
      have hcnt : countEnds (c :: r) = countEnds r := by
        rw [countEnds, if_neg (by rw [hJ]; decide)]
        simp
      rw [endsOkLTreeWalkKids r pname endDone hrT
        (fun he => by rw [← hcnt]; exact h0 he)
        (fun he => by rw [← hcnt]; exact h1 he)]
      simp
    · by_cases hE : c.kind = NodeKind.End
      · have hcnt : countEnds (c :: r) = 1 + countEnds r := by
          rw [countEnds, if_pos hE]
        cases endDone with
        | false =>
          rw [if_neg (by simp [hJ]), if_pos ⟨hE, rfl, rfl⟩, endsOkL]
          have hkE : (treeWalk true pname c).kind = NodeKind.End := by
            rw [treeWalkKind, hE]
          rw [if_pos hkE, treeWalkEndName true pname c hE]
          simp only [decide_eq_true_eq]
          have hr0 : countEnds r = 0 := by
            have := h0 rfl
            rw [hcnt] at this
            omega
          rw [endsOkTreeWalk c pname hcT,
            endsOkLTreeWalkKids r pname true hrT (fun he => by cases he)
              (fun _ => hr0)]
          simp
        | true =>
          have := h1 rfl
          rw [hcnt] at this
          omega
      · have hR : c.kind = NodeKind.Root := kindNotJointNotEnd hJ hE
        exact absurd hR hcR

end

/-- C7 (amended): the location traversal leaves kinds, offsets, channel
lists, channel data, hierarchy and all non-End-Site names unchanged — but
it does mutate the parsed tree: the End Sites it processes are renamed (and
per-node world-transform arrays are attached).  Erasing End Site names
makes the walked tree and the source tree literally equal. -/
theorem traversalMutatesOnlyEndSiteNames (es : Bool) (pname : String)
    (t : BvhNode) : scrub (treeWalk es pname t) = scrub t :=
  scrubTreeWalk t es pname

/-- Counterexample to C7 as stated: on a root with one End Site named by
the placeholder, running the traversal with End Sites included changes the
End Site's name in the tree from `Site` to `root_End`, so the parsed tree
is not unchanged. -/
theorem traversalRenamesTheTree :
    (treeWalk true "" exTreeE).children.map BvhNode.name = ["root_End"] ∧
    exTreeE.children.map BvhNode.name = ["Site"] ∧
    ("root_End" : String) ≠ "Site" := by
  refine ⟨?_, rfl, by decide⟩
  simp [treeWalk, treeWalkKids, exTreeE, exEnd, BvhNode.kind,
    BvhNode.children, BvhNode.name]

/-- C8: on well-formed trees (at most one End Site per joint, as the BVH
format guarantees) whose End Sites all carry the generic placeholder name
`Site`, the traversal assigns every End Site the synthetic name
`{parent}_End`, and assigns new names to End Sites only — every other
node's name is preserved (the `scrub` equality). -/
theorem endSitePlaceholdersRenamed (t : BvhNode) (pname : String)
    (hwf : wfTree t = true) (hsite : allSite t = true) :
    endsOk (treeWalk true pname t) = true ∧
    scrub (treeWalk true pname t) = scrub t :=
  ⟨endsOkTreeWalk t pname hwf, scrubTreeWalk t true pname⟩

/-- Witness for C8 at the concrete tree `exTreeE`. -/
theorem endSitePlaceholdersRenamed_witness :
    (wfTree exTreeE = true ∧ allSite exTreeE = true) ∧
    (endsOk (treeWalk true "" exTreeE) = true ∧
      scrub (treeWalk true "" exTreeE) = scrub exTreeE) :=
  ⟨⟨by decide, by decide⟩,
    endSitePlaceholdersRenamed exTreeE "" (by decide) (by decide)⟩

/-- C10: with both output flags off and a readable source, `bvh2csv`
attempts no write and returns `True` (and the process would exit 0). -/
theorem noOutputsRequestedIsVacuousSuccess (locIoOk rotIoOk : Bool) :
    bvh2csvRun true false false locIoOk rotIoOk =
      ⟨true, [], none, none⟩ ∧
    mainExit (bvh2csvRun true false false locIoOk rotIoOk).success = 0 := by
  cases locIoOk <;> cases rotIoOk <;> exact ⟨rfl, rfl⟩

/-- C6: whatever the outcome of either write, the set and order of
attempted writes depends only on the requested flags — a failure of one
output's write is caught inside its writer and neither prevents the
companion write attempt nor changes the companion's result. -/
theorem writeFailureDoesNotAbortCompanion (doRot doLoc locIoOk rotIoOk : Bool) :
    (bvh2csvRun true doRot doLoc locIoOk rotIoOk).attempts =
      (if doLoc then [CsvKind.locCsv] else []) ++
        (if doRot then [CsvKind.rotCsv] else []) ∧
    (bvh2csvRun true doRot doLoc locIoOk rotIoOk).rotResult =
      (bvh2csvRun true doRot doLoc true rotIoOk).rotResult ∧
    (bvh2csvRun true doRot doLoc locIoOk rotIoOk).locResult =
      (bvh2csvRun true doRot doLoc locIoOk true).locResult := by
  cases doRot <;> cases doLoc <;> cases locIoOk <;> cases rotIoOk <;>
    exact ⟨rfl, rfl, rfl⟩

/-- C3 evidence: requesting only the location output and having its write
fail still makes `bvh2csv` return `True` (exit status 0): line 171 tests
`not (loc_success or rot_success)`, and the unrequested rotation write's
flag stays `True`.  The claim (and spec §6) require overall failure and a
nonzero exit here. -/
theorem requestedWriteFailureStillReportsSuccess :
    bvh2csvRun true false true false true =
      ⟨true, [CsvKind.locCsv], some false, none⟩ ∧
    mainExit (bvh2csvRun true false true false true).success = 0 ∧
    bvh2csvRun true true true false true =
      ⟨true, [CsvKind.locCsv, CsvKind.rotCsv], some false, some true⟩ ∧
    mainExit (bvh2csvRun true true true false true).success = 0 :=
  ⟨rfl, rfl, rfl, rfl⟩

/-- C9 evidence: for a BVH file with `Frames: 3` and `Frame Time: 0.1`,
the binary64 value of `3 * 0.1` strictly exceeds 3 times the binary64
value of `0.1`, so `np.arange(0, nframes * frame_time, frame_time)` has
`⌈stop / step⌉ = 4` elements, not 3 (the rational ceiling computed here
equals numpy's floating-point one: the exact quotient lies strictly
between 3 and its rounded value 3.0000000000000004, both of which have
ceiling 4).  The time column, and with it both emitted tables, then gets
4 rows instead of `nframes = 3`. -/
theorem timeColumnLengthOffByOne :
    npArangeLen 0 dbl3x01 dbl01 = 4 ∧ (3 : ℤ) ≠ 4 := by
  constructor
  · rw [npArangeLen, dbl01, dbl3x01, Int.ceil_eq_iff]
    constructor <;> norm_num
  · decide
